import Mathlib

/-!
Shallow embedding of the deterministic study-plan scheduling engine found in
`server/controllers/plannerController.js` (the pure core: time parsing, daily
window construction, fixed-break placement, free-slot computation, block
sizing, greedy session packing and per-day assembly), together with theorems
about that embedding.

Modelling conventions:
* An `Instant` is the number of minutes since midnight of the anchor calendar
  day, as an integer.  The engine normalises its anchor date to midnight
  (`baseDate.setHours(0,0,0,0)`), so the anchor midnight is instant `0` and
  `setDate(base + dayIndex)` followed by `setHours(h, m)` yields
  `dayIndex * 1440 + h * 60 + m`.  Calendar arithmetic is modelled with
  uniform 1440-minute days, matching the specification's total date
  arithmetic.
* JavaScript `Number(string)` coercion is modelled by `jsNumber` over the
  `StringNumericLiteral` grammar: whitespace trimming, the empty string
  coercing to `0`, optionally signed `Infinity`, optionally signed decimal
  literals with fraction and exponent parts, and unsigned `0x`/`0X`, `0b`/
  `0B`, `0o`/`0O` radix literals; every other string is NaN (`none`).  A
  modelled number (`JSNum`) is an exact rational or a signed infinity: the
  IEEE-754 rounding the source's doubles perform is not modelled, so a
  finite modelled value is the literal's exact value (in particular a huge
  exponent yields a huge exact rational rather than an overflow to
  infinity; both sides of that idealisation fail the parser's range checks
  identically).
* `minutesBetweenDates` rounds an exact division by 60000 in the source; all
  instants here are whole minutes, so the rounding is the identity and the
  `Math.max(0, _)` clamp is `Int.toNat`.
-/

/-! ## Fixed configuration constants (source lines 11-20) -/

structure FixedBreakSpec where
  title : String
  startHour : Nat
  endHour : Nat
deriving DecidableEq, Repr

def FIXED_BREAKS : List FixedBreakSpec :=
  [⟨"Lunch Break", 13, 14⟩, ⟨"Snack Break", 17, 18⟩, ⟨"Dinner Break", 20, 21⟩]

def MIN_BLOCK_MINUTES : Nat := 60
def MAX_BLOCK_MINUTES : Nat := 120
def MAX_STUDY_HOURS_PER_DAY : Nat := 8
def MAX_PLANNED_DAYS : Nat := 60

/-! ## Time-of-day parsing (source lines 22-40) -/

/-- Model of a JavaScript runtime value as seen by `parseTimeString`: either a
string or some non-string value (only `typeof value !== 'string'` matters). -/
inductive JSValue where
  | str (s : String)
  | other
deriving DecidableEq, Repr

/-- Numeric value of a run of decimal digits, most significant first. -/
def digitsVal (cs : List Char) : Nat :=
  cs.foldl (fun a c => a * 10 + (c.toNat - 48)) 0

def allDigits (cs : List Char) : Bool :=
  cs.all (·.isDigit)

/-- Split a character list at every occurrence of `sep`, exactly as
JavaScript `String.prototype.split` with a one-character separator (the empty
input yields one empty component). -/
def splitOnChar (sep : Char) : List Char → List (List Char)
  | [] => [[]]
  | c :: rest =>
    match splitOnChar sep rest, c == sep with
    | parts, true => [] :: parts
    | p :: ps, _ => (c :: p) :: ps
    | [], _ => [[c]]

/-- Leading and trailing whitespace removal, as JavaScript number coercion
applies to its string argument. -/
def jsTrim (cs : List Char) : List Char :=
  ((cs.dropWhile Char.isWhitespace).reverse.dropWhile Char.isWhitespace).reverse

/-- Model of a JavaScript number as produced by `Number(string)`: an exact
finite rational or a signed infinity.  NaN is modelled as `none` at the use
sites. -/
inductive JSNum where
  | fin (q : ℚ)
  | posInf
  | negInf
deriving DecidableEq, Repr

/-- JavaScript unary negation on modelled numbers. -/
def JSNum.neg : JSNum → JSNum
  | .fin q => .fin (-q)
  | .posInf => .negInf
  | .negInf => .posInf

/-- JavaScript `<` on modelled (non-NaN) numbers. -/
def JSNum.blt : JSNum → JSNum → Bool
  | .fin a, .fin b => decide (a < b)
  | .fin _, .posInf => true
  | .fin _, .negInf => false
  | .posInf, _ => false
  | .negInf, .negInf => false
  | .negInf, _ => true

/-- Value of a single digit in radix up to 16, `none` for a non-digit. -/
def hexDigitVal (c : Char) : Option Nat :=
  if '0' ≤ c ∧ c ≤ '9' then some (c.toNat - 48)
  else if 'a' ≤ c ∧ c ≤ 'f' then some (c.toNat - 87)
  else if 'A' ≤ c ∧ c ≤ 'F' then some (c.toNat - 55)
  else none

/-- Value of a digit run in the given radix; `none` when the run is empty or
contains a character that is not a digit of that radix. -/
def radixVal (base : Nat) (cs : List Char) : Option Nat :=
  if cs = [] then none
  else
    cs.foldl (fun acc c =>
      match acc, hexDigitVal c with
      | some n, some d => if d < base then some (n * base + d) else none
      | _, _ => none) (some 0)

/-- Unsigned decimal mantissa: a digit run with at most one decimal point and
at least one digit (`"12"`, `"12."`, `".5"`, `"12.5"`). -/
def decMantissa (cs : List Char) : Option ℚ :=
  match splitOnChar '.' cs with
  | [ds] =>
    if ds ≠ [] ∧ allDigits ds then some (digitsVal ds : ℚ) else none
  | [ds, fs] =>
    if (ds ≠ [] ∨ fs ≠ []) ∧ allDigits ds ∧ allDigits fs then
      some ((digitsVal ds : ℚ) + (digitsVal fs : ℚ) / (10 : ℚ) ^ fs.length)
    else none
  | _ => none

/-- Signed integer exponent (the part after `e`/`E`). -/
def expVal (cs : List Char) : Option Int :=
  match cs with
  | '+' :: r =>
    if r ≠ [] ∧ allDigits r then some (digitsVal r : Int) else none
  | '-' :: r =>
    if r ≠ [] ∧ allDigits r then some (-(digitsVal r : Int)) else none
  | r => if r ≠ [] ∧ allDigits r then some (digitsVal r : Int) else none

/-- Unsigned decimal literal: mantissa with an optional `e`/`E` exponent
part. -/
def decLiteral (cs : List Char) : Option ℚ :=
  match splitOnChar 'e' (cs.map (fun c => if c = 'E' then 'e' else c)) with
  | [m] => decMantissa m
  | [m, ex] =>
    match decMantissa m, expVal ex with
    | some v, some p => some (v * (10 : ℚ) ^ p)
    | _, _ => none
  | _ => none

/-- Model of JavaScript `Number(string)` over the `StringNumericLiteral`
grammar: trim whitespace; the empty string is `0`; an unsigned hexadecimal,
binary or octal literal after a `0x`/`0X`, `0b`/`0B` or `0o`/`0O` prefix; or
an optional sign followed by `Infinity` or by a decimal literal with optional
fraction and exponent.  Everything else is NaN (`none`).  Finite values are
exact rationals (IEEE-754 rounding of the source's doubles is not
modelled). -/
def jsNumberOfChars (s : List Char) : Option JSNum :=
  let t := jsTrim s
  if t = [] then some (.fin 0)
  else
    match t with
    | '0' :: 'x' :: r => (radixVal 16 r).map (fun n => JSNum.fin (n : ℚ))
    | '0' :: 'X' :: r => (radixVal 16 r).map (fun n => JSNum.fin (n : ℚ))
    | '0' :: 'b' :: r => (radixVal 2 r).map (fun n => JSNum.fin (n : ℚ))
    | '0' :: 'B' :: r => (radixVal 2 r).map (fun n => JSNum.fin (n : ℚ))
    | '0' :: 'o' :: r => (radixVal 8 r).map (fun n => JSNum.fin (n : ℚ))
    | '0' :: 'O' :: r => (radixVal 8 r).map (fun n => JSNum.fin (n : ℚ))
    | t' =>
      let signBody : Bool × List Char :=
        match t' with
        | '+' :: rest => (false, rest)
        | '-' :: rest => (true, rest)
        | cs => (false, cs)
      let mag : Option JSNum :=
        if signBody.2 = ['I', 'n', 'f', 'i', 'n', 'i', 't', 'y'] then
          some JSNum.posInf
        else (decLiteral signBody.2).map JSNum.fin
      mag.map (fun j => if signBody.1 then j.neg else j)

/-- Model of JavaScript `Number(x)` for `x` a string component of a split, or
`undefined` when the split yielded no such component (`Number(undefined)` is
NaN). -/
def jsNumber : Option (List Char) → Option JSNum
  | none => none
  | some s => jsNumberOfChars s

/-- Hour/minute pair as returned by the source parser.  The source returns
the raw coerced JavaScript numbers, which may be fractional (e.g.
`"9.5:30"`), so the fields are modelled JavaScript numbers. -/
structure ParsedTime where
  hours : JSNum
  minutes : JSNum
deriving DecidableEq, Repr

/-- Embedding of `parseTimeString` (source lines 22-40).  A thrown error is an
`Except.error` carrying the message.  `Number.isNaN` failing is the `none`
case of `jsNumber`; the four range comparisons are JavaScript `<` on the
coerced numbers. -/
def parseTimeString (value : JSValue) : Except String ParsedTime :=
  match value with
  | .other => .error "Time must be in HH:MM format"
  | .str s =>
    let parts := splitOnChar ':' s.data
    match jsNumber parts[0]?, jsNumber parts[1]? with
    | some hours, some minutes =>
      if JSNum.blt hours (.fin 0) || JSNum.blt (.fin 23) hours ||
          JSNum.blt minutes (.fin 0) || JSNum.blt (.fin 59) minutes then
        .error ("Invalid time format: " ++ s)
      else
        .ok ⟨hours, minutes⟩
    | _, _ => .error ("Invalid time format: " ++ s)

/-! ## Instants and interval arithmetic (source lines 42-46) -/

/-- Minutes since midnight of the anchor calendar day.  Written as a bare
`Int` in every signature (rather than an abbreviation) so that arithmetic
automation sees the concrete type. -/
abbrev Instant := Int

/-- Embedding of `minutesBetweenDates` (source lines 42-44): the instants are
whole minutes, so `Math.round` is the identity and `Math.max(0,_)` is
`Int.toNat`. -/
def minutesBetweenDates (start finish : Int) : Nat :=
  (finish - start).toNat

/-- Embedding of `addMinutes` (source line 46). -/
def addMinutes (date : Int) (minutes : Nat) : Int :=
  date + minutes

/-- Validated time of day as used by the engine after parsing (integral hour
and minute; validity is `hours ≤ 23 ∧ minutes ≤ 59`). -/
structure TimeOfDay where
  hours : Nat
  minutes : Nat
deriving DecidableEq, Repr

/-! ## Daily window (source lines 48-62) -/

/-- Embedding of `getDailyWindow` (source lines 48-62) with the anchor
normalised to midnight of day 0, as `buildStructuredPlan` does. -/
def getDailyWindow (dayIndex : Nat) (startTime endTime : TimeOfDay) :
    Int × Int :=
  let dayStart : Int :=
    (dayIndex : Int) * 1440 + (startTime.hours : Int) * 60 + startTime.minutes
  let dayEnd : Int :=
    (dayIndex : Int) * 1440 + (endTime.hours : Int) * 60 + endTime.minutes
  if dayEnd ≤ dayStart then (dayStart, dayEnd + 1440) else (dayStart, dayEnd)

/-! ## Break placement (source lines 64-88) -/

structure BreakInterval where
  title : String
  start : Int
  «end» : Int
deriving DecidableEq, Repr

/-- Candidate break interval for one `FixedBreakSpec` on a given day, before
the containment test (source lines 71-81): anchored at the day's midnight,
wrapped by one day if `end <= start`, then shifted forward one day if its
start precedes the window start. -/
def breakCandidate (dayIndex : Nat) (windowStart : Int)
    (spec : FixedBreakSpec) : BreakInterval :=
  let base : Int := (dayIndex : Int) * 1440
  let start := base + (spec.startHour : Int) * 60
  let e0 := base + (spec.endHour : Int) * 60
  let e1 := if e0 ≤ start then e0 + 1440 else e0
  if start < windowStart then ⟨spec.title, start + 1440, e1 + 1440⟩
  else ⟨spec.title, start, e1⟩

/-- Embedding of `buildBreaksForDay` (source lines 64-88): keep each candidate
only if fully contained in the window, then sort ascending by start (the
source's stable `Array.prototype.sort` with comparator `a.start - b.start` is
modelled by the stable `insertionSort`). -/
def buildBreaksForDay (dayIndex : Nat) (windowStart windowEnd : Int) :
    List BreakInterval :=
  List.insertionSort (fun a b => a.start ≤ b.start)
    (FIXED_BREAKS.filterMap (fun spec =>
      if windowStart ≤ (breakCandidate dayIndex windowStart spec).start ∧
          (breakCandidate dayIndex windowStart spec).«end» ≤ windowEnd then
        some (breakCandidate dayIndex windowStart spec)
      else none))

/-! ## Free slots (source lines 90-109) -/

structure Slot where
  start : Int
  «end» : Int
deriving DecidableEq, Repr

/-- Cursor walk of `buildStudyWindows` (source lines 95-106): the open
interval before each break becomes a candidate slot and the cursor advances to
the break end, only ever forward. -/
def studyWindowCandidates (cursor dayEnd : Int) :
    List BreakInterval → List Slot
  | [] => if cursor < dayEnd then [⟨cursor, dayEnd⟩] else []
  | brk :: rest =>
    (if cursor < brk.start then [(⟨cursor, brk.start⟩ : Slot)] else []) ++
      studyWindowCandidates (if cursor < brk.«end» then brk.«end» else cursor)
        dayEnd rest

/-- Embedding of `buildStudyWindows` (source lines 90-109): defensively
re-sort the breaks, walk the window, then drop candidates shorter than the
minimum block length. -/
def buildStudyWindows (dayStart dayEnd : Int)
    (breaks : List BreakInterval) : List Slot :=
  (studyWindowCandidates dayStart dayEnd
      (List.insertionSort (fun a b => a.start ≤ b.start) breaks)).filter
    (fun slot =>
      decide (MIN_BLOCK_MINUTES ≤ minutesBetweenDates slot.start slot.«end»))

/-! ## Block sizing (source lines 111-130) -/

/-- Embedding of `choosePreferredBlockMinutes` (source lines 111-120).
`perSubject = availableMinutes / subjectCount` is JavaScript float division;
on the engine's magnitudes it agrees with exact division, and under the guard
`subjectCount > 0` the test `perSubject >= 90` is the cross-multiplied
integer comparison used here (the equivalence with the exact-division form is
proved in `choosePreferredBlockMinutes_div_form`). -/
def choosePreferredBlockMinutes (availableMinutes : Nat)
    (subjectCount : Int) : Nat :=
  if availableMinutes < MIN_BLOCK_MINUTES ∨ subjectCount ≤ 0 then 0
  else
    if 90 * subjectCount ≤ (availableMinutes : Int) ∧
        MAX_BLOCK_MINUTES ≤ availableMinutes then
      MAX_BLOCK_MINUTES
    else MIN_BLOCK_MINUTES

/-- Embedding of `pickBlockLength` (source lines 122-130); `preferred` truthy
means nonzero. -/
def pickBlockLength (preferred slotRemaining capRemaining : Nat) : Nat :=
  if preferred ≠ 0 ∧ preferred ≤ slotRemaining ∧ preferred ≤ capRemaining then
    preferred
  else if MIN_BLOCK_MINUTES ≤ slotRemaining ∧ MIN_BLOCK_MINUTES ≤ capRemaining
    then MIN_BLOCK_MINUTES
  else 0

/-! ## Session packing and per-day assembly (source lines 132-230) -/

structure PlanItem where
  subjectId : Option Nat
  title : String
  start : Int
  «end» : Int
  completed : Bool
deriving DecidableEq, Repr

/-- Duration in minutes of one plan item, as the source measures intervals. -/
def itemMinutes (i : PlanItem) : Nat :=
  minutesBetweenDates i.start i.«end»

def sumDur (items : List PlanItem) : Nat :=
  (items.map itemMinutes).sum

/-- Break interval rendered as a plan item (source lines 217-223). -/
def breakToItem (b : BreakInterval) : PlanItem :=
  ⟨none, b.title, b.start, b.«end», false⟩

/-- Session created by one placement: subject chosen round-robin by the
global cursor, block spanning `[cursor, cursor + blockLength)` (source lines
195-204).  The `getD` default is never used: packing only runs when the
preferred block is nonzero, which requires a positive subject count. -/
def sessionItem (subjectNames : List String) (subjectCursor : Nat)
    (cursor : Int) (blockLength : Nat) : PlanItem :=
  ⟨none, "Study " ++ subjectNames.getD (subjectCursor % subjectNames.length) "",
    cursor, addMinutes cursor blockLength, false⟩

/-- Fuelled form of the inner `while` loop of `buildStructuredPlan` (source
lines 187-209).  Every executed iteration schedules at least one minute of
the remaining cap budget, so running the loop with `dayCap -
minutesScheduled` units of fuel computes the loop exactly
(`packSlot_unfold` below recovers the loop recurrence verbatim); structural
recursion on the fuel keeps the definition kernel-evaluable. -/
def packSlotF (subjectNames : List String) (preferredBlock dayCap : Nat)
    (windowEnd : Int) :
    Nat → Int → Nat → Nat → List PlanItem × Nat × Nat
  | 0, _, minutesScheduled, subjectCursor =>
    ([], minutesScheduled, subjectCursor)
  | fuel + 1, cursor, minutesScheduled, subjectCursor =>
    if minutesScheduled < dayCap then
      let blockLength := pickBlockLength preferredBlock
        (minutesBetweenDates cursor windowEnd) (dayCap - minutesScheduled)
      if blockLength = 0 then ([], minutesScheduled, subjectCursor)
      else
        let r := packSlotF subjectNames preferredBlock dayCap windowEnd fuel
          (addMinutes cursor blockLength) (minutesScheduled + blockLength)
          (subjectCursor + 1)
        (sessionItem subjectNames subjectCursor cursor blockLength :: r.1, r.2)
    else ([], minutesScheduled, subjectCursor)

/-- Inner `while` loop of `buildStructuredPlan` (source lines 187-209): pack
one free slot from `cursor` while the day cap is not reached.  Returns the
created sessions, the updated cumulative scheduled minutes and the updated
global subject cursor. -/
def packSlot (subjectNames : List String) (preferredBlock dayCap : Nat)
    (windowEnd : Int) (cursor : Int)
    (minutesScheduled subjectCursor : Nat) : List PlanItem × Nat × Nat :=
  packSlotF subjectNames preferredBlock dayCap windowEnd
    (dayCap - minutesScheduled) cursor minutesScheduled subjectCursor

/-- Outer `for`-loop of `buildStructuredPlan` over the day's free slots
(source lines 185-213), stopping entirely once the cap is reached. -/
def packDay (subjectNames : List String) (preferredBlock dayCap : Nat)
    (windows : List Slot) (minutesScheduled subjectCursor : Nat) :
    List PlanItem × Nat × Nat :=
  match windows with
  | [] => ([], minutesScheduled, subjectCursor)
  | w :: rest =>
    let r := packSlot subjectNames preferredBlock dayCap w.«end» w.start
      minutesScheduled subjectCursor
    if dayCap ≤ r.2.1 then r
    else
      let r' := packDay subjectNames preferredBlock dayCap rest r.2.1 r.2.2
      (r.1 ++ r'.1, r'.2)

/-- Breaks of one day, placed against that day's window (source line 147). -/
def dayBreaks (startTime endTime : TimeOfDay) (dayIndex : Nat) :
    List BreakInterval :=
  let w := getDailyWindow dayIndex startTime endTime
  buildBreaksForDay dayIndex w.1 w.2

/-- Free slots of one day (source line 148). -/
def dayFreeSlots (startTime endTime : TimeOfDay) (dayIndex : Nat) : List Slot :=
  let w := getDailyWindow dayIndex startTime endTime
  buildStudyWindows w.1 w.2 (dayBreaks startTime endTime dayIndex)

/-- Total free minutes of one day (source lines 149-152). -/
def dayAvailable (startTime endTime : TimeOfDay) (dayIndex : Nat) : Nat :=
  ((dayFreeSlots startTime endTime dayIndex).map
    (fun slot => minutesBetweenDates slot.start slot.«end»)).sum

/-- One iteration of the per-day loop of `buildStructuredPlan` (source lines
145-227): produce the day's merged item sequence and the updated global
subject cursor. -/
def buildDay (subjectNames : List String) (startTime endTime : TimeOfDay)
    (maxStudyMinutesPerDay : Nat) (dayIndex subjectCursor : Nat) :
    List PlanItem × Nat :=
  let breaks := dayBreaks startTime endTime dayIndex
  let breakItems := breaks.map breakToItem
  let availableMinutes := dayAvailable startTime endTime dayIndex
  if availableMinutes = 0 then (breakItems, subjectCursor)
  else
    let preferredBlock :=
      choosePreferredBlockMinutes availableMinutes (subjectNames.length : Int)
    if preferredBlock = 0 then (breakItems, subjectCursor)
    else
      let dayCap := min maxStudyMinutesPerDay availableMinutes
      let r := packDay subjectNames preferredBlock dayCap
        (dayFreeSlots startTime endTime dayIndex) 0 subjectCursor
      (List.insertionSort (fun a b => a.start ≤ b.start) (r.1 ++ breakItems),
        r.2.2)

/-- Embedding of `buildStructuredPlan` (source lines 132-230): one pass per
day index, threading the global subject cursor across days, concatenating the
days' merged item sequences. -/
def buildStructuredPlan (subjectNames : List String) (totalDays : Nat)
    (startTime endTime : TimeOfDay) (maxStudyMinutesPerDay : Nat) :
    List PlanItem :=
  ((List.range totalDays).foldl
    (fun acc dayIndex =>
      let r := buildDay subjectNames startTime endTime maxStudyMinutesPerDay
        dayIndex acc.2
      (acc.1 ++ r.1, r.2))
    ([], 0)).1

/-! ## Coverage predicates used to state the window-partition claims -/

/-- An instant lies inside one of the listed slots (half-open intervals). -/
def coveredBySlot (slots : List Slot) (t : Int) : Prop :=
  ∃ s ∈ slots, s.start ≤ t ∧ t < s.«end»

/-- An instant lies inside one of the listed breaks (half-open intervals). -/
def coveredByBreak (breaks : List BreakInterval) (t : Int) : Prop :=
  ∃ b ∈ breaks, b.start ≤ t ∧ t < b.«end»

instance (slots : List Slot) (t : Int) : Decidable (coveredBySlot slots t) :=
  inferInstanceAs (Decidable (∃ s ∈ slots, _ ∧ _))

instance (breaks : List BreakInterval) (t : Int) :
    Decidable (coveredByBreak breaks t) :=
  inferInstanceAs (Decidable (∃ b ∈ breaks, _ ∧ _))

/-! ## Helper instances and general lemmas -/

instance : DecidableEq (Except String ParsedTime) := fun a b =>
  match a, b with
  | .ok x, .ok y => decidable_of_iff (x = y) (by simp)
  | .error x, .error y => decidable_of_iff (x = y) (by simp)
  | .ok _, .error _ => isFalse (by simp)
  | .error _, .ok _ => isFalse (by simp)

/-- The executable multiplicative test in `choosePreferredBlockMinutes`
coincides with the source's exact-division formulation
`perSubject = availableMinutes / subjectCount >= 90`. -/
theorem choosePreferredBlockMinutes_div_form (availableMinutes : Nat)
    (subjectCount : Int) :
    choosePreferredBlockMinutes availableMinutes subjectCount =
      if availableMinutes < MIN_BLOCK_MINUTES ∨ subjectCount ≤ 0 then 0
      else
        if 90 ≤ (availableMinutes : ℚ) / (subjectCount : ℚ) ∧
            MAX_BLOCK_MINUTES ≤ availableMinutes then
          MAX_BLOCK_MINUTES
        else MIN_BLOCK_MINUTES := by
  unfold choosePreferredBlockMinutes
  by_cases hguard : availableMinutes < MIN_BLOCK_MINUTES ∨ subjectCount ≤ 0
  · simp [hguard]
  · have hpos : (0 : Int) < subjectCount := by omega
    have hposq : (0 : ℚ) < (subjectCount : ℚ) := by exact_mod_cast hpos
    have hiff : (90 : ℚ) ≤ (availableMinutes : ℚ) / (subjectCount : ℚ) ↔
        90 * subjectCount ≤ (availableMinutes : Int) := by
      rw [le_div_iff₀ hposq]
      exact_mod_cast Iff.rfl
    simp only [if_neg hguard, hiff]


instance : IsTotal BreakInterval (fun a b => a.start ≤ b.start) :=
  ⟨fun a b => le_total a.start b.start⟩

instance : IsTrans BreakInterval (fun a b => a.start ≤ b.start) :=
  ⟨fun _ _ _ h h' => le_trans h h'⟩

instance : IsTotal PlanItem (fun a b => a.start ≤ b.start) :=
  ⟨fun a b => le_total a.start b.start⟩

instance : IsTrans PlanItem (fun a b => a.start ≤ b.start) :=
  ⟨fun _ _ _ h h' => le_trans h h'⟩

/-- A list of intervals sorted by start whose members are pairwise disjoint
and nonempty is pairwise separated: each interval ends before the next
starts. -/
theorem pairwise_sep_of_sorted {α : Type} (s e : α → Int) {l : List α}
    (hsort : l.Pairwise (fun a b => s a ≤ s b))
    (hdisj : l.Pairwise (fun a b => e a ≤ s b ∨ e b ≤ s a))
    (hlt : ∀ x ∈ l, s x < e x) :
    l.Pairwise (fun a b => e a ≤ s b) := by
  induction l with
  | nil => exact List.Pairwise.nil
  | cons x xs ih =>
    rw [List.pairwise_cons] at hsort hdisj ⊢
    refine ⟨fun b hb => ?_, ih hsort.2 hdisj.2
      (fun y hy => hlt y (List.mem_cons_of_mem _ hy))⟩
    rcases hdisj.1 b hb with h | h
    · exact h
    · have h1 := hsort.1 b hb
      have h2 := hlt b (List.mem_cons_of_mem _ hb)
      omega

/-! ## Break-placement lemmas -/

/-- Shape of a candidate break: all fixed breaks are one hour long, so the
midnight-wrap branch is never taken, and the candidate starts at the spec's
nominal start, shifted forward one day exactly when the nominal start
precedes the window start. -/
theorem breakCandidate_shape (d : Nat) (ws : Int) (spec : FixedBreakSpec)
    (hspec : spec ∈ FIXED_BREAKS) :
    (breakCandidate d ws spec).«end» = (breakCandidate d ws spec).start + 60 ∧
    (breakCandidate d ws spec).title = spec.title ∧
    (((d : Int) * 1440 + spec.startHour * 60 < ws ∧
        (breakCandidate d ws spec).start =
          (d : Int) * 1440 + spec.startHour * 60 + 1440) ∨
      (ws ≤ (d : Int) * 1440 + spec.startHour * 60 ∧
        (breakCandidate d ws spec).start =
          (d : Int) * 1440 + spec.startHour * 60)) := by
  have hs : spec = ⟨"Lunch Break", 13, 14⟩ ∨ spec = ⟨"Snack Break", 17, 18⟩ ∨
      spec = ⟨"Dinner Break", 20, 21⟩ := by
    simpa [FIXED_BREAKS] using hspec
  rcases hs with rfl | rfl | rfl <;>
    · simp only [breakCandidate]
      split_ifs <;> exact ⟨by dsimp only; omega, rfl, by dsimp only; omega⟩

/-- Every emitted break is inside the window, is one hour long, and is the
candidate of one of the fixed break specifications. -/
theorem mem_buildBreaksForDay {d : Nat} {ws we : Int} {b : BreakInterval}
    (hb : b ∈ buildBreaksForDay d ws we) :
    ws ≤ b.start ∧ b.«end» = b.start + 60 ∧ b.«end» ≤ we ∧
    ∃ spec ∈ FIXED_BREAKS, b = breakCandidate d ws spec := by
  unfold buildBreaksForDay at hb
  rw [List.mem_insertionSort, List.mem_filterMap] at hb
  obtain ⟨spec, hspec, heq⟩ := hb
  split_ifs at heq with hcond
  obtain rfl := Option.some_injective _ heq
  obtain ⟨he, -, -⟩ := breakCandidate_shape d ws spec hspec
  exact ⟨hcond.1, he, hcond.2, spec, hspec, rfl⟩

/-- The emitted breaks are sorted ascending by start. -/
theorem buildBreaksForDay_sorted (d : Nat) (ws we : Int) :
    (buildBreaksForDay d ws we).Pairwise (fun a b => a.start ≤ b.start) := by
  unfold buildBreaksForDay
  exact List.sorted_insertionSort _ _

/-- Candidates of two distinct fixed break specifications never overlap:
their possibly day-shifted starts are always at least two hours apart. -/
theorem breakCandidate_disjoint (d : Nat) (ws : Int)
    {s1 s2 : FixedBreakSpec} (h1 : s1 ∈ FIXED_BREAKS) (h2 : s2 ∈ FIXED_BREAKS)
    (hne : s1.startHour ≠ s2.startHour) :
    (breakCandidate d ws s1).«end» ≤ (breakCandidate d ws s2).start ∨
      (breakCandidate d ws s2).«end» ≤ (breakCandidate d ws s1).start := by
  obtain ⟨he1, -, hst1⟩ := breakCandidate_shape d ws s1 h1
  obtain ⟨he2, -, hst2⟩ := breakCandidate_shape d ws s2 h2
  have hh1 : s1.startHour = 13 ∨ s1.startHour = 17 ∨ s1.startHour = 20 := by
    have hs : s1 = ⟨"Lunch Break", 13, 14⟩ ∨ s1 = ⟨"Snack Break", 17, 18⟩ ∨
        s1 = ⟨"Dinner Break", 20, 21⟩ := by simpa [FIXED_BREAKS] using h1
    rcases hs with rfl | rfl | rfl <;> simp
  have hh2 : s2.startHour = 13 ∨ s2.startHour = 17 ∨ s2.startHour = 20 := by
    have hs : s2 = ⟨"Lunch Break", 13, 14⟩ ∨ s2 = ⟨"Snack Break", 17, 18⟩ ∨
        s2 = ⟨"Dinner Break", 20, 21⟩ := by simpa [FIXED_BREAKS] using h2
    rcases hs with rfl | rfl | rfl <;> simp
  rw [he1, he2]
  rcases hst1 with ⟨-, e1⟩ | ⟨-, e1⟩ <;> rcases hst2 with ⟨-, e2⟩ | ⟨-, e2⟩ <;>
    rw [e1, e2] <;>
    rcases hh1 with r1 | r1 | r1 <;> rcases hh2 with r2 | r2 | r2 <;>
    rw [r1, r2] at hne ⊢ <;> omega

/-- The emitted breaks are pairwise disjoint. -/
theorem buildBreaksForDay_symDisj (d : Nat) (ws we : Int) :
    (buildBreaksForDay d ws we).Pairwise
      (fun a b => a.«end» ≤ b.start ∨ b.«end» ≤ a.start) := by
  unfold buildBreaksForDay
  refine List.Pairwise.perm ?_ (List.perm_insertionSort _ _).symm
    (fun h => h.symm)
  rw [List.pairwise_filterMap]
  have hpair : ∀ s1 s2 : FixedBreakSpec, s1 ∈ FIXED_BREAKS → s2 ∈ FIXED_BREAKS →
      s1.startHour ≠ s2.startHour →
      ∀ b, (if ws ≤ (breakCandidate d ws s1).start ∧
          (breakCandidate d ws s1).«end» ≤ we
        then some (breakCandidate d ws s1) else none) = some b →
      ∀ b', (if ws ≤ (breakCandidate d ws s2).start ∧
          (breakCandidate d ws s2).«end» ≤ we
        then some (breakCandidate d ws s2) else none) = some b' →
      b.«end» ≤ b'.start ∨ b'.«end» ≤ b.start := by
    intro s1 s2 hs1 hs2 hne b hb b' hb'
    split_ifs at hb hb'
    obtain rfl := Option.some_injective _ hb
    obtain rfl := Option.some_injective _ hb'
    exact breakCandidate_disjoint d ws hs1 hs2 hne
  rw [show FIXED_BREAKS = [⟨"Lunch Break", 13, 14⟩, ⟨"Snack Break", 17, 18⟩,
    ⟨"Dinner Break", 20, 21⟩] from rfl]
  refine List.Pairwise.cons ?_ (List.Pairwise.cons ?_
    (List.pairwise_singleton _ _))
  · intro s2 hs2
    rcases List.mem_cons.mp hs2 with rfl | hs2
    · exact hpair _ _ (by simp [FIXED_BREAKS]) (by simp [FIXED_BREAKS])
        (by decide)
    · rcases List.mem_singleton.mp hs2 with rfl
      exact hpair _ _ (by simp [FIXED_BREAKS]) (by simp [FIXED_BREAKS])
        (by decide)
  · intro s2 hs2
    rcases List.mem_singleton.mp hs2 with rfl
    exact hpair _ _ (by simp [FIXED_BREAKS]) (by simp [FIXED_BREAKS])
      (by decide)

/-- Every emitted break strictly precedes its own end. -/
theorem buildBreaksForDay_lt {d : Nat} {ws we : Int} {b : BreakInterval}
    (hb : b ∈ buildBreaksForDay d ws we) : b.start < b.«end» := by
  obtain ⟨-, he, -, -⟩ := mem_buildBreaksForDay hb
  omega

/-- The emitted breaks are separated: each ends no later than the next
starts. -/
theorem buildBreaksForDay_sep (d : Nat) (ws we : Int) :
    (buildBreaksForDay d ws we).Pairwise (fun a b => a.«end» ≤ b.start) :=
  pairwise_sep_of_sorted (fun b => b.start) (fun b => b.«end»)
    (buildBreaksForDay_sorted d ws we) (buildBreaksForDay_symDisj d ws we)
    (fun _ hb => buildBreaksForDay_lt hb)

/-! ## Free-slot walk lemmas -/

/-- Bounds of the walk's candidate slots: every candidate lies inside
`[cursor, dayEnd]` and is nonempty, assuming the breaks lie ahead of the
cursor, are nonempty, end within the window, and are separated. -/
theorem studyWindowCandidates_bounds {dayEnd : Int} :
    ∀ (bs : List BreakInterval) (cursor : Int),
    (∀ b ∈ bs, cursor ≤ b.start ∧ b.start < b.«end» ∧ b.«end» ≤ dayEnd) →
    bs.Pairwise (fun a b => a.«end» ≤ b.start) →
    ∀ s ∈ studyWindowCandidates cursor dayEnd bs,
      cursor ≤ s.start ∧ s.start < s.«end» ∧ s.«end» ≤ dayEnd
  | [], cursor, _, _, s, hs => by
    unfold studyWindowCandidates at hs
    split_ifs at hs with h
    · rcases List.mem_singleton.mp hs with rfl
      exact ⟨le_refl _, h, le_refl _⟩
    · cases hs
  | b :: rest, cursor, hmem, hsep, s, hs => by
    obtain ⟨hcb, hlt, hend⟩ := hmem b (List.mem_cons_self b rest)
    unfold studyWindowCandidates at hs
    rw [if_pos (lt_of_le_of_lt hcb hlt)] at hs
    rw [List.pairwise_cons] at hsep
    rcases List.mem_append.mp hs with hs' | hs'
    · split_ifs at hs' with hc
      · rcases List.mem_singleton.mp hs' with rfl
        exact ⟨le_refl _, hc, le_trans (le_of_lt hlt) hend⟩
      · cases hs'
    · have hrest : ∀ b' ∈ rest,
          b.«end» ≤ b'.start ∧ b'.start < b'.«end» ∧ b'.«end» ≤ dayEnd := by
        intro b' hb'
        obtain ⟨-, h2, h3⟩ := hmem b' (List.mem_cons_of_mem _ hb')
        exact ⟨hsep.1 b' hb', h2, h3⟩
      have ih := studyWindowCandidates_bounds rest b.«end» hrest hsep.2 s hs'
      exact ⟨le_trans hcb (le_trans (le_of_lt hlt) ih.1), ih.2⟩

/-- The walk's candidate slots are separated: each ends no later than the
next starts. -/
theorem studyWindowCandidates_sep {dayEnd : Int} :
    ∀ (bs : List BreakInterval) (cursor : Int),
    (∀ b ∈ bs, cursor ≤ b.start ∧ b.start < b.«end» ∧ b.«end» ≤ dayEnd) →
    bs.Pairwise (fun a b => a.«end» ≤ b.start) →
    (studyWindowCandidates cursor dayEnd bs).Pairwise
      (fun a b => a.«end» ≤ b.start)
  | [], cursor, _, _ => by
    unfold studyWindowCandidates
    split_ifs
    · exact List.pairwise_singleton _ _
    · exact List.Pairwise.nil
  | b :: rest, cursor, hmem, hsep => by
    obtain ⟨hcb, hlt, hend⟩ := hmem b (List.mem_cons_self b rest)
    unfold studyWindowCandidates
    rw [if_pos (lt_of_le_of_lt hcb hlt)]
    rw [List.pairwise_cons] at hsep
    have hrest : ∀ b' ∈ rest,
        b.«end» ≤ b'.start ∧ b'.start < b'.«end» ∧ b'.«end» ≤ dayEnd := by
      intro b' hb'
      obtain ⟨-, h2, h3⟩ := hmem b' (List.mem_cons_of_mem _ hb')
      exact ⟨hsep.1 b' hb', h2, h3⟩
    have ih := studyWindowCandidates_sep rest b.«end» hrest hsep.2
    rw [List.pairwise_append]
    refine ⟨?_, ih, ?_⟩
    · split_ifs
      · exact List.pairwise_singleton _ _
      · exact List.Pairwise.nil
    · intro s1 hs1 s2 hs2
      split_ifs at hs1 with hc
      · rcases List.mem_singleton.mp hs1 with rfl
        have hb2 := studyWindowCandidates_bounds rest b.«end» hrest hsep.2
          s2 hs2
        exact le_trans (le_of_lt hlt) hb2.1
      · cases hs1

/-- Every candidate slot is disjoint from every break of the walked list. -/
theorem studyWindowCandidates_disjoint {dayEnd : Int} :
    ∀ (bs : List BreakInterval) (cursor : Int),
    (∀ b ∈ bs, cursor ≤ b.start ∧ b.start < b.«end» ∧ b.«end» ≤ dayEnd) →
    bs.Pairwise (fun a b => a.«end» ≤ b.start) →
    ∀ s ∈ studyWindowCandidates cursor dayEnd bs, ∀ b ∈ bs,
      s.«end» ≤ b.start ∨ b.«end» ≤ s.start
  | [], _, _, _, _, _, b, hb => absurd hb (List.not_mem_nil b)
  | b :: rest, cursor, hmem, hsep, s, hs, b', hb' => by
    obtain ⟨hcb, hlt, hend⟩ := hmem b (List.mem_cons_self b rest)
    unfold studyWindowCandidates at hs
    rw [if_pos (lt_of_le_of_lt hcb hlt)] at hs
    rw [List.pairwise_cons] at hsep
    have hrest : ∀ b'' ∈ rest,
        b.«end» ≤ b''.start ∧ b''.start < b''.«end» ∧ b''.«end» ≤ dayEnd := by
      intro b'' hb''
      obtain ⟨-, h2, h3⟩ := hmem b'' (List.mem_cons_of_mem _ hb'')
      exact ⟨hsep.1 b'' hb'', h2, h3⟩
    rcases List.mem_append.mp hs with hs' | hs'
    · split_ifs at hs' with hc
      · rcases List.mem_singleton.mp hs' with rfl
        rcases List.mem_cons.mp hb' with rfl | hb''
        · exact Or.inl (le_refl _)
        · exact Or.inl (le_trans (le_of_lt hlt) (hrest b' hb'').1)
      · cases hs'
    · rcases List.mem_cons.mp hb' with rfl | hb''
      · have hb2 := studyWindowCandidates_bounds rest b'.«end» hrest hsep.2
          s hs'
        exact Or.inr hb2.1
      · exact studyWindowCandidates_disjoint rest b.«end» hrest hsep.2
          s hs' b' hb''

/-- Partition property of the walk: an instant lies in the half-open window
`[cursor, dayEnd)` exactly when it lies in a candidate slot or in one of the
walked breaks. -/
theorem studyWindowCandidates_partition {dayEnd : Int} :
    ∀ (bs : List BreakInterval) (cursor : Int),
    (∀ b ∈ bs, cursor ≤ b.start ∧ b.start < b.«end» ∧ b.«end» ≤ dayEnd) →
    bs.Pairwise (fun a b => a.«end» ≤ b.start) →
    ∀ t : Int, (cursor ≤ t ∧ t < dayEnd) ↔
      (coveredBySlot (studyWindowCandidates cursor dayEnd bs) t ∨
        coveredByBreak bs t)
  | [], cursor, _, _, t => by
    unfold studyWindowCandidates coveredBySlot coveredByBreak
    split_ifs with h
    · simp only [List.mem_singleton, List.not_mem_nil]
      constructor
      · intro ht
        exact Or.inl ⟨⟨cursor, dayEnd⟩, rfl, ht.1, ht.2⟩
      · rintro (⟨s, rfl, h1, h2⟩ | ⟨b, hb, -⟩)
        · exact ⟨h1, h2⟩
        · cases hb
    · simp only [List.not_mem_nil]
      constructor
      · intro ht
        omega
      · rintro (⟨s, hs, -⟩ | ⟨b, hb, -⟩)
        · cases hs
        · cases hb
  | b :: rest, cursor, hmem, hsep, t => by
    obtain ⟨hcb, hlt, hend⟩ := hmem b (List.mem_cons_self b rest)
    rw [List.pairwise_cons] at hsep
    have hrest : ∀ b' ∈ rest,
        b.«end» ≤ b'.start ∧ b'.start < b'.«end» ∧ b'.«end» ≤ dayEnd := by
      intro b' hb'
      obtain ⟨-, h2, h3⟩ := hmem b' (List.mem_cons_of_mem _ hb')
      exact ⟨hsep.1 b' hb', h2, h3⟩
    have ih := studyWindowCandidates_partition rest b.«end» hrest hsep.2 t
    unfold studyWindowCandidates
    rw [if_pos (lt_of_le_of_lt hcb hlt)]
    constructor
    · intro ht
      by_cases h1 : t < b.start
      · refine Or.inl ⟨⟨cursor, b.start⟩, ?_, ht.1, h1⟩
        rw [coveredBySlot] at *
        split_ifs with hc
        · exact List.mem_append.mpr (Or.inl (List.mem_singleton.mpr rfl))
        · omega
      · by_cases h2 : t < b.«end»
        · exact Or.inr ⟨b, List.mem_cons_self b rest, not_lt.mp h1, h2⟩
        · rcases (ih.mp ⟨not_lt.mp h2, ht.2⟩) with hc | hc
          · obtain ⟨s, hs, hts⟩ := hc
            exact Or.inl ⟨s, List.mem_append.mpr (Or.inr hs), hts⟩
          · obtain ⟨b', hb', htb⟩ := hc
            exact Or.inr ⟨b', List.mem_cons_of_mem _ hb', htb⟩
    · rintro (⟨s, hs, hts⟩ | ⟨b', hb', htb⟩)
      · rcases List.mem_append.mp hs with hs' | hs'
        · split_ifs at hs' with hc
          · rcases List.mem_singleton.mp hs' with rfl
            exact ⟨hts.1, lt_of_lt_of_le (lt_of_lt_of_le hts.2
              (le_of_lt hlt)) hend⟩
          · cases hs'
        · have hb2 := studyWindowCandidates_bounds rest b.«end» hrest hsep.2
            s hs'
          have := ih.mpr (Or.inl ⟨s, hs', hts⟩)
          exact ⟨le_trans hcb (le_trans (le_of_lt hlt) this.1), this.2⟩
      · rcases List.mem_cons.mp hb' with rfl | hb''
        · exact ⟨le_trans hcb htb.1, lt_of_lt_of_le htb.2 hend⟩
        · have := ih.mpr (Or.inr ⟨b', hb'', htb⟩)
          exact ⟨le_trans hcb (le_trans (le_of_lt hlt) this.1), this.2⟩

/-! ## Block-sizing and packing lemmas -/

/-- A nonzero chosen block length is positive and fits both the remaining
slot and the remaining cap budget. -/
theorem pickBlockLength_fits {preferred slotRemaining capRemaining : Nat}
    (h : pickBlockLength preferred slotRemaining capRemaining ≠ 0) :
    0 < pickBlockLength preferred slotRemaining capRemaining ∧
    pickBlockLength preferred slotRemaining capRemaining ≤ slotRemaining ∧
    pickBlockLength preferred slotRemaining capRemaining ≤ capRemaining := by
  unfold pickBlockLength at *
  split_ifs at * with h1 h2
  · exact ⟨Nat.pos_of_ne_zero h1.1, h1.2.1, h1.2.2⟩
  · exact ⟨by simp [MIN_BLOCK_MINUTES], h2.1, h2.2⟩
  · exact absurd rfl h

/-- The fuelled slot-packing loop is insensitive to the exact fuel value as
long as the fuel covers the remaining cap budget; in particular `packSlot`
computes the source's `while` loop. -/
theorem packSlotF_congr (subjectNames : List String)
    (preferredBlock dayCap : Nat) (windowEnd : Int) :
    ∀ (f1 f2 : Nat) (cursor : Int) (ms sc : Nat),
    dayCap - ms ≤ f1 → dayCap - ms ≤ f2 →
    packSlotF subjectNames preferredBlock dayCap windowEnd f1 cursor ms sc =
      packSlotF subjectNames preferredBlock dayCap windowEnd f2 cursor ms sc
  | 0, 0, _, _, _, _, _ => rfl
  | 0, f2 + 1, cursor, ms, sc, h1, _ => by
    have hms : ¬ ms < dayCap := by omega
    simp only [packSlotF, if_neg hms]
  | f1 + 1, 0, cursor, ms, sc, _, h2 => by
    have hms : ¬ ms < dayCap := by omega
    simp only [packSlotF, if_neg hms]
  | f1 + 1, f2 + 1, cursor, ms, sc, h1, h2 => by
    simp only [packSlotF]
    split_ifs with hms hb
    · rfl
    · have hpos := (pickBlockLength_fits hb).1
      rw [packSlotF_congr subjectNames preferredBlock dayCap windowEnd
        f1 f2 _ _ _ (by omega) (by omega)]
    · rfl

/-- Loop recurrence of `packSlot`, exactly as the source's `while` loop reads:
test the cap, choose a block length, stop on zero, otherwise emit one session
and continue at the advanced cursor. -/
theorem packSlot_unfold (subjectNames : List String)
    (preferredBlock dayCap : Nat) (windowEnd : Int) (cursor : Int)
    (ms sc : Nat) :
    packSlot subjectNames preferredBlock dayCap windowEnd cursor ms sc =
      if ms < dayCap then
        if pickBlockLength preferredBlock (minutesBetweenDates cursor windowEnd)
            (dayCap - ms) = 0 then ([], ms, sc)
        else
          ((sessionItem subjectNames sc cursor
              (pickBlockLength preferredBlock
                (minutesBetweenDates cursor windowEnd) (dayCap - ms))) ::
            (packSlot subjectNames preferredBlock dayCap windowEnd
              (addMinutes cursor (pickBlockLength preferredBlock
                (minutesBetweenDates cursor windowEnd) (dayCap - ms)))
              (ms + pickBlockLength preferredBlock
                (minutesBetweenDates cursor windowEnd) (dayCap - ms))
              (sc + 1)).1,
            (packSlot subjectNames preferredBlock dayCap windowEnd
              (addMinutes cursor (pickBlockLength preferredBlock
                (minutesBetweenDates cursor windowEnd) (dayCap - ms)))
              (ms + pickBlockLength preferredBlock
                (minutesBetweenDates cursor windowEnd) (dayCap - ms))
              (sc + 1)).2)
      else ([], ms, sc) := by
  unfold packSlot
  by_cases hms : ms < dayCap
  · obtain ⟨f, hf⟩ : ∃ f, dayCap - ms = f + 1 := ⟨dayCap - ms - 1, by omega⟩
    rw [hf]
    simp only [packSlotF, if_pos hms]
    rw [hf]
    split_ifs with hb
    · rfl
    · rw [packSlotF_congr subjectNames preferredBlock dayCap windowEnd
        f (dayCap - (ms + pickBlockLength preferredBlock
          (minutesBetweenDates cursor windowEnd) (f + 1))) _ _ _
        (by have := (pickBlockLength_fits hb).1; omega) (by omega)]
  · have hf : dayCap - ms = 0 := by omega
    rw [hf, if_neg hms]
    rfl

/-- Invariants of the fuelled packing loop, for any fuel: the returned
cumulative minutes equal the input plus the emitted durations and never
exceed the cap; each emitted session lies in `[cursor, windowEnd]`, is
nonempty, and sessions are separated in emission order; every emitted item is
a subject-less study session. -/
theorem packSlotF_spec (subjectNames : List String)
    (preferredBlock dayCap : Nat) (windowEnd : Int) :
    ∀ (fuel : Nat) (cursor : Int) (ms sc : Nat),
    (packSlotF subjectNames preferredBlock dayCap windowEnd
        fuel cursor ms sc).2.1 =
      ms + sumDur (packSlotF subjectNames preferredBlock dayCap windowEnd
        fuel cursor ms sc).1 ∧
    (ms ≤ dayCap → (packSlotF subjectNames preferredBlock dayCap windowEnd
        fuel cursor ms sc).2.1 ≤ dayCap) ∧
    (∀ i ∈ (packSlotF subjectNames preferredBlock dayCap windowEnd
        fuel cursor ms sc).1,
      cursor ≤ i.start ∧ i.start < i.«end» ∧ i.«end» ≤ windowEnd) ∧
    (packSlotF subjectNames preferredBlock dayCap windowEnd
        fuel cursor ms sc).1.Pairwise (fun a b => a.«end» ≤ b.start) ∧
    (∀ i ∈ (packSlotF subjectNames preferredBlock dayCap windowEnd
        fuel cursor ms sc).1,
      i.subjectId = none ∧ (∃ n, i.title = "Study " ++ n) ∧
        i.completed = false)
  | 0, cursor, ms, sc => by
    simp [packSlotF, sumDur]
  | fuel + 1, cursor, ms, sc => by
    simp only [packSlotF]
    split_ifs with hms hb
    · simp [sumDur]
    · obtain ⟨hpos, hslot, hcap⟩ := pickBlockLength_fits hb
      set bl := pickBlockLength preferredBlock
        (minutesBetweenDates cursor windowEnd) (dayCap - ms) with hbl
      have ih := packSlotF_spec subjectNames preferredBlock dayCap windowEnd
        fuel (addMinutes cursor bl) (ms + bl) (sc + 1)
      have hcursor : cursor + (bl : Int) ≤ windowEnd := by
        have : (bl : Nat) ≤ (windowEnd - cursor).toNat := hslot
        omega
      have hitem : itemMinutes (sessionItem subjectNames sc cursor bl) = bl := by
        simp only [itemMinutes, sessionItem, minutesBetweenDates, addMinutes]
        omega
      refine ⟨?_, ?_, ?_, ?_, ?_⟩
      · simp only [sumDur, List.map_cons, List.sum_cons, hitem]
        rw [ih.1]
        simp [sumDur]
        omega
      · intro _
        exact ih.2.1 (by omega)
      · intro i hi
        rcases List.mem_cons.mp hi with rfl | hi'
        · refine ⟨le_refl _, ?_, ?_⟩ <;>
            simp only [sessionItem, addMinutes] <;> omega
        · obtain ⟨h1, h2, h3⟩ := ih.2.2.1 i hi'
          refine ⟨?_, h2, h3⟩
          simp only [addMinutes] at h1
          omega
      · rw [List.pairwise_cons]
        refine ⟨?_, ih.2.2.2.1⟩
        intro i hi
        have h1 := (ih.2.2.1 i hi).1
        simp only [sessionItem, addMinutes] at h1 ⊢
        omega
      · intro i hi
        rcases List.mem_cons.mp hi with rfl | hi'
        · exact ⟨rfl, ⟨_, rfl⟩, rfl⟩
        · exact ih.2.2.2.2 i hi'
    · simp [sumDur]

/-- `packSlot` invariants, inherited from the fuelled loop. -/
theorem packSlot_spec (subjectNames : List String)
    (preferredBlock dayCap : Nat) (windowEnd : Int) (cursor : Int)
    (ms sc : Nat) :
    (packSlot subjectNames preferredBlock dayCap windowEnd
        cursor ms sc).2.1 =
      ms + sumDur (packSlot subjectNames preferredBlock dayCap windowEnd
        cursor ms sc).1 ∧
    (ms ≤ dayCap → (packSlot subjectNames preferredBlock dayCap windowEnd
        cursor ms sc).2.1 ≤ dayCap) ∧
    (∀ i ∈ (packSlot subjectNames preferredBlock dayCap windowEnd
        cursor ms sc).1,
      cursor ≤ i.start ∧ i.start < i.«end» ∧ i.«end» ≤ windowEnd) ∧
    (packSlot subjectNames preferredBlock dayCap windowEnd
        cursor ms sc).1.Pairwise (fun a b => a.«end» ≤ b.start) ∧
    (∀ i ∈ (packSlot subjectNames preferredBlock dayCap windowEnd
        cursor ms sc).1,
      i.subjectId = none ∧ (∃ n, i.title = "Study " ++ n) ∧
        i.completed = false) :=
  packSlotF_spec subjectNames preferredBlock dayCap windowEnd
    (dayCap - ms) cursor ms sc

/-- Once the cumulative scheduled minutes reach the cap, the slot loop does
nothing. -/
theorem packSlot_stop (subjectNames : List String)
    (preferredBlock dayCap : Nat) (windowEnd : Int) (cursor : Int)
    {ms : Nat} (sc : Nat) (h : dayCap ≤ ms) :
    packSlot subjectNames preferredBlock dayCap windowEnd cursor ms sc =
      ([], ms, sc) := by
  unfold packSlot
  rw [Nat.sub_eq_zero_of_le h]
  rfl

/-- `packDay` invariants: cumulative minutes equal input plus emitted
durations and never exceed the cap; each emitted session lies inside one of
the walked slots; with separated slots, the emitted sessions are separated in
emission order; every emitted item is a subject-less study session. -/
theorem packDay_spec (subjectNames : List String)
    (preferredBlock dayCap : Nat) :
    ∀ (windows : List Slot) (ms sc : Nat),
    (packDay subjectNames preferredBlock dayCap windows ms sc).2.1 =
      ms + sumDur (packDay subjectNames preferredBlock dayCap
        windows ms sc).1 ∧
    (ms ≤ dayCap → (packDay subjectNames preferredBlock dayCap
        windows ms sc).2.1 ≤ dayCap) ∧
    (∀ i ∈ (packDay subjectNames preferredBlock dayCap windows ms sc).1,
      ∃ w ∈ windows, w.start ≤ i.start ∧ i.start < i.«end» ∧
        i.«end» ≤ w.«end») ∧
    (windows.Pairwise (fun a b => a.«end» ≤ b.start) →
      (packDay subjectNames preferredBlock dayCap
        windows ms sc).1.Pairwise (fun a b => a.«end» ≤ b.start)) ∧
    (∀ i ∈ (packDay subjectNames preferredBlock dayCap windows ms sc).1,
      i.subjectId = none ∧ (∃ n, i.title = "Study " ++ n) ∧
        i.completed = false)
  | [], ms, sc => by
    simp [packDay, sumDur]
  | w :: rest, ms, sc => by
    have hslot := packSlot_spec subjectNames preferredBlock dayCap
      w.«end» w.start ms sc
    simp only [packDay]
    split_ifs with hstop
    · refine ⟨hslot.1, fun h => hslot.2.1 h, ?_, fun _ => hslot.2.2.2.1,
        hslot.2.2.2.2⟩
      intro i hi
      obtain ⟨h1, h2, h3⟩ := hslot.2.2.1 i hi
      exact ⟨w, List.mem_cons_self w rest, h1, h2, h3⟩
    · set r := packSlot subjectNames preferredBlock dayCap w.«end»
        w.start ms sc with hr
      have ih := packDay_spec subjectNames preferredBlock dayCap
        rest r.2.1 r.2.2
      refine ⟨?_, ?_, ?_, ?_, ?_⟩
      · show (packDay subjectNames preferredBlock dayCap rest r.2.1
          r.2.2).2.1 = ms + sumDur (r.1 ++ (packDay subjectNames
          preferredBlock dayCap rest r.2.1 r.2.2).1)
        rw [ih.1, hslot.1]
        simp [sumDur]
        omega
      · intro hms
        exact ih.2.1 (hslot.2.1 hms)
      · intro i hi
        rcases List.mem_append.mp hi with hi' | hi'
        · obtain ⟨h1, h2, h3⟩ := hslot.2.2.1 i hi'
          exact ⟨w, List.mem_cons_self w rest, h1, h2, h3⟩
        · obtain ⟨w', hw', h⟩ := ih.2.2.1 i hi'
          exact ⟨w', List.mem_cons_of_mem _ hw', h⟩
      · intro hpw
        rw [List.pairwise_cons] at hpw
        rw [List.pairwise_append]
        refine ⟨hslot.2.2.2.1, ih.2.2.2.1 hpw.2, ?_⟩
        intro i1 h1 i2 h2
        obtain ⟨-, -, he1⟩ := hslot.2.2.1 i1 h1
        obtain ⟨w', hw', hs2, -, -⟩ := ih.2.2.1 i2 h2
        exact le_trans he1 (le_trans (hpw.1 w' hw') hs2)
      · intro i hi
        rcases List.mem_append.mp hi with hi' | hi'
        · exact hslot.2.2.2.2 i hi'
        · exact ih.2.2.2.2 i hi'

/-- Once the cumulative scheduled minutes reach the cap, the day loop emits
nothing more, even when free slots remain. -/
theorem packDay_stop (subjectNames : List String)
    (preferredBlock dayCap : Nat) :
    ∀ (windows : List Slot) {ms : Nat} (sc : Nat), dayCap ≤ ms →
    packDay subjectNames preferredBlock dayCap windows ms sc = ([], ms, sc)
  | [], ms, sc, _ => rfl
  | w :: rest, ms, sc, h => by
    simp only [packDay, packSlot_stop subjectNames preferredBlock dayCap
      w.«end» w.start sc h]
    rw [if_pos h]

/-! ## Day-level lemmas -/

/-- Window-relative bounds of one day's placed breaks. -/
theorem mem_dayBreaks {s e : TimeOfDay} {d : Nat} {b : BreakInterval}
    (hb : b ∈ dayBreaks s e d) :
    (getDailyWindow d s e).1 ≤ b.start ∧ b.start < b.«end» ∧
      b.«end» ≤ (getDailyWindow d s e).2 := by
  simp only [dayBreaks] at hb
  obtain ⟨h1, h2, h3, -⟩ := mem_buildBreaksForDay hb
  exact ⟨h1, by omega, h3⟩

/-- One day's placed breaks are separated. -/
theorem dayBreaks_sep (s e : TimeOfDay) (d : Nat) :
    (dayBreaks s e d).Pairwise (fun a b => a.«end» ≤ b.start) := by
  simp only [dayBreaks]
  exact buildBreaksForDay_sep d _ _

/-- The free slots are the length-filtered walk candidates: the defensive
re-sort inside `buildStudyWindows` is the identity because the placed breaks
are already sorted. -/
theorem dayFreeSlots_eq (s e : TimeOfDay) (d : Nat) :
    dayFreeSlots s e d =
      (studyWindowCandidates (getDailyWindow d s e).1 (getDailyWindow d s e).2
        (dayBreaks s e d)).filter
        (fun slot =>
          decide (MIN_BLOCK_MINUTES ≤
            minutesBetweenDates slot.start slot.«end»)) := by
  simp only [dayFreeSlots, buildStudyWindows]
  rw [List.Sorted.insertionSort_eq]
  simp only [dayBreaks]
  exact buildBreaksForDay_sorted d _ _

/-- Free slots are walk candidates. -/
theorem dayFreeSlots_subset {s e : TimeOfDay} {d : Nat} {w : Slot}
    (hw : w ∈ dayFreeSlots s e d) :
    w ∈ studyWindowCandidates (getDailyWindow d s e).1
      (getDailyWindow d s e).2 (dayBreaks s e d) := by
  rw [dayFreeSlots_eq] at hw
  exact (List.mem_filter.mp hw).1

/-- One day's free slots are separated. -/
theorem dayFreeSlots_sep (s e : TimeOfDay) (d : Nat) :
    (dayFreeSlots s e d).Pairwise (fun a b => a.«end» ≤ b.start) := by
  rw [dayFreeSlots_eq]
  exact List.Pairwise.filter _
    (studyWindowCandidates_sep (dayBreaks s e d) (getDailyWindow d s e).1
      (fun b hb => mem_dayBreaks hb) (dayBreaks_sep s e d))

/-- Bounds of one day's free slots. -/
theorem dayFreeSlots_bounds {s e : TimeOfDay} {d : Nat} {w : Slot}
    (hw : w ∈ dayFreeSlots s e d) :
    (getDailyWindow d s e).1 ≤ w.start ∧ w.start < w.«end» ∧
      w.«end» ≤ (getDailyWindow d s e).2 :=
  studyWindowCandidates_bounds (dayBreaks s e d) (getDailyWindow d s e).1
    (fun b hb => mem_dayBreaks hb) (dayBreaks_sep s e d) w
    (dayFreeSlots_subset hw)

/-- Each free slot is disjoint from each placed break of the same day. -/
theorem dayFreeSlots_disjoint_breaks {s e : TimeOfDay} {d : Nat} {w : Slot}
    (hw : w ∈ dayFreeSlots s e d) {b : BreakInterval}
    (hb : b ∈ dayBreaks s e d) :
    w.«end» ≤ b.start ∨ b.«end» ≤ w.start :=
  studyWindowCandidates_disjoint (dayBreaks s e d) (getDailyWindow d s e).1
    (fun b' hb' => mem_dayBreaks hb') (dayBreaks_sep s e d) w
    (dayFreeSlots_subset hw) b hb

/-- Every placed break carries the title of one of the fixed break specs. -/
theorem mem_dayBreaks_title {s e : TimeOfDay} {d : Nat} {b : BreakInterval}
    (hb : b ∈ dayBreaks s e d) :
    ∃ spec ∈ FIXED_BREAKS, b.title = spec.title := by
  simp only [dayBreaks] at hb
  obtain ⟨-, -, -, spec, hspec, rfl⟩ := mem_buildBreaksForDay hb
  exact ⟨spec, hspec, (breakCandidate_shape _ _ _ hspec).2.1⟩

/-- Separation and item-shape invariants of one assembled day: the merged
item sequence is separated (each item ends no later than the next starts),
every item is nonempty, carries no subject reference, and is titled either
`"Study " ++ name` or with a fixed break title. -/
theorem buildDay_spec (subjectNames : List String) (s e : TimeOfDay)
    (maxStudy d sc : Nat) :
    ((buildDay subjectNames s e maxStudy d sc).1).Pairwise
      (fun a b => a.«end» ≤ b.start) ∧
    (∀ i ∈ (buildDay subjectNames s e maxStudy d sc).1,
      i.start < i.«end» ∧ i.subjectId = none ∧
        ((∃ n, i.title = "Study " ++ n) ∨
          ∃ spec ∈ FIXED_BREAKS, i.title = spec.title)) := by
  have hbreakItems : ∀ i ∈ (dayBreaks s e d).map breakToItem,
      i.start < i.«end» ∧ i.subjectId = none ∧
        ((∃ n, i.title = "Study " ++ n) ∨
          ∃ spec ∈ FIXED_BREAKS, i.title = spec.title) := by
    intro i hi
    obtain ⟨b, hb, rfl⟩ := List.mem_map.mp hi
    exact ⟨(mem_dayBreaks hb).2.1, rfl, Or.inr (mem_dayBreaks_title hb)⟩
  have hbreakSep : ((dayBreaks s e d).map breakToItem).Pairwise
      (fun a b => a.«end» ≤ b.start) :=
    (dayBreaks_sep s e d).map breakToItem (fun a b h => h)
  simp only [buildDay]
  split_ifs with h1 h2
  · exact ⟨hbreakSep, hbreakItems⟩
  · exact ⟨hbreakSep, hbreakItems⟩
  · set pref := choosePreferredBlockMinutes (dayAvailable s e d)
      (subjectNames.length : Int) with hpref
    set cap := min maxStudy (dayAvailable s e d) with hcap
    have hpack := packDay_spec subjectNames pref cap (dayFreeSlots s e d) 0 sc
    set sessions := (packDay subjectNames pref cap
      (dayFreeSlots s e d) 0 sc).1 with hsessions
    set combined := sessions ++ (dayBreaks s e d).map breakToItem
      with hcombined
    have hforall : ∀ i ∈ combined, i.start < i.«end» ∧ i.subjectId = none ∧
        ((∃ n, i.title = "Study " ++ n) ∨
          ∃ spec ∈ FIXED_BREAKS, i.title = spec.title) := by
      intro i hi
      rcases List.mem_append.mp hi with hi' | hi'
      · obtain ⟨w, -, -, hlt, -⟩ := hpack.2.2.1 i hi'
        obtain ⟨hsub, htitle, -⟩ := hpack.2.2.2.2 i hi'
        exact ⟨hlt, hsub, Or.inl htitle⟩
      · exact hbreakItems i hi'
    have hsymdisj : combined.Pairwise
        (fun a b => a.«end» ≤ b.start ∨ b.«end» ≤ a.start) := by
      rw [hcombined, List.pairwise_append]
      refine ⟨(hpack.2.2.2.1 (dayFreeSlots_sep s e d)).imp Or.inl,
        hbreakSep.imp Or.inl, ?_⟩
      intro i1 hi1 i2 hi2
      obtain ⟨w, hw, hws, -, hwe⟩ := hpack.2.2.1 i1 hi1
      obtain ⟨b, hb, rfl⟩ := List.mem_map.mp hi2
      rcases dayFreeSlots_disjoint_breaks hw hb with hd | hd
      · exact Or.inl (le_trans hwe hd)
      · exact Or.inr (le_trans hd hws)
    have hsorted := List.sorted_insertionSort
      (fun a b : PlanItem => a.start ≤ b.start) combined
    have hperm := List.perm_insertionSort
      (fun a b : PlanItem => a.start ≤ b.start) combined
    have hsymdisj' := hsymdisj.perm hperm.symm (fun h => h.symm)
    refine ⟨pairwise_sep_of_sorted (fun i : PlanItem => i.start)
        (fun i : PlanItem => i.«end») ?_ hsymdisj' ?_, ?_⟩
    · exact hsorted
    · intro x hx
      exact (hforall x (hperm.mem_iff.mp hx)).1
    · intro i hi
      exact hforall i (hperm.mem_iff.mp hi)

/-- Fixed break titles never have the study-session shape. -/
theorem breakTitle_not_study :
    ∀ spec ∈ FIXED_BREAKS, ¬ ∃ n : String, spec.title = "Study " ++ n := by
  intro spec hspec ⟨n, hn⟩
  have hs : spec = ⟨"Lunch Break", 13, 14⟩ ∨ spec = ⟨"Snack Break", 17, 18⟩ ∨
      spec = ⟨"Dinner Break", 20, 21⟩ := by
    simpa [FIXED_BREAKS] using hspec
  have hd := congrArg (fun t : String => t.data[1]?) hn
  rcases hs with rfl | rfl | rfl <;>
    simpa [String.data_append] using hd

/-- Every item of a whole planning run comes from one of the assembled
days. -/
theorem mem_buildStructuredPlan {subjectNames : List String}
    {totalDays : Nat} {s e : TimeOfDay} {maxStudy : Nat} {i : PlanItem}
    (hi : i ∈ buildStructuredPlan subjectNames totalDays s e maxStudy) :
    ∃ d sc, i ∈ (buildDay subjectNames s e maxStudy d sc).1 := by
  unfold buildStructuredPlan at hi
  suffices h : ∀ (days : List Nat) (acc : List PlanItem × Nat),
      (∀ j ∈ acc.1, ∃ d sc, j ∈ (buildDay subjectNames s e maxStudy d sc).1) →
      ∀ j ∈ (days.foldl (fun acc dayIndex =>
        ((acc.1 ++ (buildDay subjectNames s e maxStudy dayIndex acc.2).1),
          (buildDay subjectNames s e maxStudy dayIndex acc.2).2)) acc).1,
        ∃ d sc, j ∈ (buildDay subjectNames s e maxStudy d sc).1 by
    exact h (List.range totalDays) ([], 0) (by simp) i hi
  intro days
  induction days with
  | nil => exact fun acc hacc j hj => hacc j hj
  | cons d rest ih =>
    intro acc hacc j hj
    refine ih _ ?_ j hj
    intro k hk
    rcases List.mem_append.mp hk with hk' | hk'
    · exact hacc k hk'
    · exact ⟨d, acc.2, hk'⟩

/-- C7: within any single day of a run, the merged sequence of sessions and
breaks is strictly ordered by start instant and no two items overlap: each
item is nonempty and ends no later than the next item starts, so starts are
strictly increasing and interiors are pairwise disjoint. -/
theorem c7_day_items_ordered (subjectNames : List String) (s e : TimeOfDay)
    (maxStudy d sc : Nat) :
    ((buildDay subjectNames s e maxStudy d sc).1).Pairwise
      (fun a b => a.«end» ≤ b.start) ∧
    ∀ i ∈ (buildDay subjectNames s e maxStudy d sc).1, i.start < i.«end» := by
  obtain ⟨h1, h2⟩ := buildDay_spec subjectNames s e maxStudy d sc
  exact ⟨h1, fun i hi => (h2 i hi).1⟩

/-- Witness for C7 at the end-to-end scenario's first day. -/
theorem c7_witness :
    (⟨none, "Study Math", 540, 660, false⟩ : PlanItem).start <
      (⟨none, "Study Math", 540, 660, false⟩ : PlanItem).«end» :=
  (c7_day_items_ordered ["Math", "Physics"] ⟨9, 0⟩ ⟨17, 0⟩ 420 0 0).2
    ⟨none, "Study Math", 540, 660, false⟩ (by decide)

/-- C10: every plan item of a whole run carries no subject reference
(`subjectId = none`), and an item is a study session exactly when its title
has the shape `"Study " ++ name`; all other items carry one of the fixed
break titles, none of which has that shape. -/
theorem c10_subject_ref (subjectNames : List String) (totalDays : Nat)
    (s e : TimeOfDay) (maxStudy : Nat) :
    (∀ i ∈ buildStructuredPlan subjectNames totalDays s e maxStudy,
      i.subjectId = none ∧
        ((∃ n, i.title = "Study " ++ n) ∨
          ∃ spec ∈ FIXED_BREAKS, i.title = spec.title)) ∧
    ∀ spec ∈ FIXED_BREAKS, ¬ ∃ n : String, spec.title = "Study " ++ n := by
  refine ⟨?_, breakTitle_not_study⟩
  intro i hi
  obtain ⟨d, sc, hd⟩ := mem_buildStructuredPlan hi
  obtain ⟨-, h2, h3⟩ := (buildDay_spec subjectNames s e maxStudy d sc).2 i hd
  exact ⟨h2, h3⟩

/-- Witness for C10 at the end-to-end scenario. -/
theorem c10_witness :
    (⟨none, "Lunch Break", 780, 840, false⟩ : PlanItem).subjectId = none :=
  ((c10_subject_ref ["Math", "Physics"] 1 ⟨9, 0⟩ ⟨17, 0⟩ 420).1
    ⟨none, "Lunch Break", 780, 840, false⟩ (by decide)).1

/-- C8: every emitted break of a day is contained in the day's window
(`start ≥ window.start`, `end ≤ window.end`, hence `start < window.end`: a
break whose start would coincide with the window end is excluded), a
candidate whose nominal start precedes the window start is shifted forward
exactly one day before the containment test, and the emitted breaks are
sorted ascending by start. -/
theorem c8_break_placement (d : Nat) (ws we : Int) :
    ((buildBreaksForDay d ws we).Pairwise (fun a b => a.start ≤ b.start)) ∧
    ∀ b ∈ buildBreaksForDay d ws we,
      ws ≤ b.start ∧ b.«end» ≤ we ∧ b.start < we ∧
      ∃ spec ∈ FIXED_BREAKS, b.title = spec.title ∧ b.«end» = b.start + 60 ∧
        ((d : Int) * 1440 + spec.startHour * 60 < ws →
          b.start = (d : Int) * 1440 + spec.startHour * 60 + 1440) ∧
        (ws ≤ (d : Int) * 1440 + spec.startHour * 60 →
          b.start = (d : Int) * 1440 + spec.startHour * 60) := by
  refine ⟨buildBreaksForDay_sorted d ws we, ?_⟩
  intro b hb
  obtain ⟨h1, h2, h3, spec, hspec, rfl⟩ := mem_buildBreaksForDay hb
  obtain ⟨he, ht, hshift⟩ := breakCandidate_shape d ws spec hspec
  refine ⟨h1, h3, by omega, spec, hspec, ht, he, ?_, ?_⟩
  · intro hlt
    rcases hshift with ⟨-, h⟩ | ⟨hge, -⟩
    · exact h
    · omega
  · intro hge
    rcases hshift with ⟨hlt, -⟩ | ⟨-, h⟩
    · omega
    · exact h

/-- Witness for C8: the lunch break inside the 09:00-17:00 window of day 0
starts no earlier than the window. -/
theorem c8_witness :
    (540 : Int) ≤ (⟨"Lunch Break", 780, 840⟩ : BreakInterval).start :=
  ((c8_break_placement 0 540 1020).2 ⟨"Lunch Break", 780, 840⟩ (by decide)).1

/-- C9: for valid times of day the window builder always yields
`start < end`; the start is the same-day instant, the end is the same-day end
instant advanced by exactly one day when that instant is not strictly after
the start; concretely a 22:00-06:00 window ends 360 minutes into the calendar
day after the one its start lies on. -/
theorem c9_daily_window (d : Nat) (s e : TimeOfDay) (hs1 : s.hours ≤ 23)
    (hs2 : s.minutes ≤ 59) (he1 : e.hours ≤ 23) (he2 : e.minutes ≤ 59) :
    (getDailyWindow d s e).1 < (getDailyWindow d s e).2 ∧
    (getDailyWindow d s e).1 =
      (d : Int) * 1440 + s.hours * 60 + s.minutes ∧
    ((d : Int) * 1440 + e.hours * 60 + e.minutes ≤
        (d : Int) * 1440 + s.hours * 60 + s.minutes →
      (getDailyWindow d s e).2 =
        (d : Int) * 1440 + e.hours * 60 + e.minutes + 1440) ∧
    ((d : Int) * 1440 + s.hours * 60 + s.minutes <
        (d : Int) * 1440 + e.hours * 60 + e.minutes →
      (getDailyWindow d s e).2 =
        (d : Int) * 1440 + e.hours * 60 + e.minutes) ∧
    (getDailyWindow d ⟨22, 0⟩ ⟨6, 0⟩ =
        ((d : Int) * 1440 + 1320, (d : Int) * 1440 + 1800) ∧
      ((d : Int) * 1440 + 1800) / 1440 =
        ((d : Int) * 1440 + 1320) / 1440 + 1) := by
  refine ⟨?_, ?_, ?_, ?_, ?_, ?_⟩
  · simp only [getDailyWindow]
    split_ifs with h <;> omega
  · simp only [getDailyWindow]
    split_ifs with h <;> rfl
  · intro h
    simp only [getDailyWindow]
    rw [if_pos h]
  · intro h
    simp only [getDailyWindow]
    rw [if_neg (by omega)]
  · simp only [getDailyWindow]
    rw [if_pos (by omega)]
    rw [Prod.mk.injEq]
    constructor <;> omega
  · omega

/-- Witness for C9: the midnight-wrapping 22:00-06:00 window of day 0. -/
theorem c9_witness :
    (getDailyWindow 0 ⟨22, 0⟩ ⟨6, 0⟩).1 < (getDailyWindow 0 ⟨22, 0⟩ ⟨6, 0⟩).2 :=
  (c9_daily_window 0 ⟨22, 0⟩ ⟨6, 0⟩ (by decide) (by decide) (by decide)
    (by decide)).1

/-- C1: the end-to-end scenario — subjects Math and Physics, window
09:00-17:00 (instants 540 and 1020 of day 0), one day, cap 420 minutes —
produces exactly five items in order: Study Math 09:00-11:00, Study Physics
11:00-13:00, Lunch Break 13:00-14:00, Study Math 14:00-16:00, Study Physics
16:00-17:00; the Snack and Dinner breaks do not appear. -/
theorem c1_scenario :
    buildStructuredPlan ["Math", "Physics"] 1 ⟨9, 0⟩ ⟨17, 0⟩ 420 =
      [⟨none, "Study Math", 540, 660, false⟩,
       ⟨none, "Study Physics", 660, 780, false⟩,
       ⟨none, "Lunch Break", 780, 840, false⟩,
       ⟨none, "Study Math", 840, 960, false⟩,
       ⟨none, "Study Physics", 960, 1020, false⟩] := by decide

/-- C5: round-robin subject assignment with subjects A, B, C over a
09:00-12:00 window for three days with a 120-minute cap yields two sessions
per day and the title sequence A, B, C, A, B, C: the first five sessions are
Study A, Study B, Study C, Study A, Study B in order, and the cursor visibly
persists across the two day boundaries (a per-day reset would instead give
A, B, A, B, A, B). -/
theorem c5_round_robin :
    (buildStructuredPlan ["A", "B", "C"] 3 ⟨9, 0⟩ ⟨12, 0⟩ 120).map
        (fun i => i.title) =
      ["Study A", "Study B", "Study C", "Study A", "Study B", "Study C"] := by
  decide

/-- C2 counterexample: for the valid day window 09:00-14:30 of day 0 (instants
540 to 870), the instant 850 lies in the window but in no computed free slot
and in no placed break — the 14:00-14:30 residue after the lunch break is
shorter than 60 minutes and is discarded by the free-slot filter, so the
union of free slots and breaks does not equal the window. -/
theorem c2_counterexample :
    (getDailyWindow 0 ⟨9, 0⟩ ⟨14, 30⟩).1 ≤ 850 ∧
    (850 : Int) < (getDailyWindow 0 ⟨9, 0⟩ ⟨14, 30⟩).2 ∧
    ¬ coveredBySlot (dayFreeSlots ⟨9, 0⟩ ⟨14, 30⟩ 0) 850 ∧
    ¬ coveredByBreak (dayBreaks ⟨9, 0⟩ ⟨14, 30⟩ 0) 850 := by decide

/-- C2 (amended): for every day, the union of the day's placed breaks and its
pre-filter free-interval candidates equals the window exactly, and no instant
lies in both a computed free slot and a break; the computed free slots are
the candidates of duration at least 60 minutes, so the union of free slots
and breaks can fall short of the window by residues shorter than 60 minutes
(as the counterexample above exhibits). -/
theorem c2_window_partition (s e : TimeOfDay) (d : Nat) (t : Int) :
    (((getDailyWindow d s e).1 ≤ t ∧ t < (getDailyWindow d s e).2) ↔
      (coveredBySlot (studyWindowCandidates (getDailyWindow d s e).1
          (getDailyWindow d s e).2 (dayBreaks s e d)) t ∨
        coveredByBreak (dayBreaks s e d) t)) ∧
    ¬(coveredBySlot (dayFreeSlots s e d) t ∧
      coveredByBreak (dayBreaks s e d) t) := by
  constructor
  · exact studyWindowCandidates_partition (dayBreaks s e d)
      (getDailyWindow d s e).1 (fun b hb => mem_dayBreaks hb)
      (dayBreaks_sep s e d) t
  · simp only [coveredBySlot, coveredByBreak]
    rintro ⟨⟨w, hw, ht1, ht2⟩, ⟨b, hb, ht3, ht4⟩⟩
    rcases dayFreeSlots_disjoint_breaks hw hb with hd | hd <;> omega

/-- Witness for the amended C2: instant 600 of day 0's 09:00-17:00 window is
covered by a candidate slot or a break. -/
theorem c2_witness :
    coveredBySlot (studyWindowCandidates (getDailyWindow 0 ⟨9, 0⟩ ⟨17, 0⟩).1
        (getDailyWindow 0 ⟨9, 0⟩ ⟨17, 0⟩).2 (dayBreaks ⟨9, 0⟩ ⟨17, 0⟩ 0)) 600 ∨
      coveredByBreak (dayBreaks ⟨9, 0⟩ ⟨17, 0⟩ 0) 600 :=
  (c2_window_partition ⟨9, 0⟩ ⟨17, 0⟩ 0 600).1.mp (by decide)

/-- C3: the preferred-block function returns 0 whenever the available minutes
are below 60 or the subject count is nonpositive — in particular
`preferredBlock 0 n = 0` for every `n` — and the quoted concrete values of
both sizing functions hold. -/
theorem c3_block_sizer :
    (∀ (a : Nat) (n : Int), a < 60 ∨ n ≤ 0 →
      choosePreferredBlockMinutes a n = 0) ∧
    (∀ n : Int, choosePreferredBlockMinutes 0 n = 0) ∧
    choosePreferredBlockMinutes 400 2 = 120 ∧
    choosePreferredBlockMinutes 90 2 = 60 ∧
    pickBlockLength 120 90 200 = 60 ∧
    pickBlockLength 120 50 200 = 0 := by
  have hzero : ∀ (a : Nat) (n : Int), a < 60 ∨ n ≤ 0 →
      choosePreferredBlockMinutes a n = 0 := by
    intro a n h
    simp only [choosePreferredBlockMinutes, MIN_BLOCK_MINUTES]
    rw [if_pos h]
  exact ⟨hzero, fun n => hzero 0 n (Or.inl (by norm_num)), by decide,
    by decide, by decide, by decide⟩

/-- Witness for C3 at available minutes 30 and subject count 5. -/
theorem c3_witness : choosePreferredBlockMinutes 30 5 = 0 :=
  c3_block_sizer.1 30 5 (Or.inl (by norm_num))

/-- C6: for every day, the sum of the packed sessions' durations is at most
`min(day cap, that day's free minutes)`, and once the cumulative scheduled
minutes reach the day cap the packer emits nothing more, whatever free slots
remain. -/
theorem c6_day_cap (subjectNames : List String) (s e : TimeOfDay)
    (maxStudy d sc : Nat) :
    sumDur (packDay subjectNames
        (choosePreferredBlockMinutes (dayAvailable s e d)
          (subjectNames.length : Int))
        (min maxStudy (dayAvailable s e d)) (dayFreeSlots s e d) 0 sc).1 ≤
      min maxStudy (dayAvailable s e d) ∧
    ∀ (windows : List Slot) (ms : Nat),
      min maxStudy (dayAvailable s e d) ≤ ms →
      packDay subjectNames
        (choosePreferredBlockMinutes (dayAvailable s e d)
          (subjectNames.length : Int))
        (min maxStudy (dayAvailable s e d)) windows ms sc = ([], ms, sc) := by
  constructor
  · have hpack := packDay_spec subjectNames
      (choosePreferredBlockMinutes (dayAvailable s e d)
        (subjectNames.length : Int))
      (min maxStudy (dayAvailable s e d)) (dayFreeSlots s e d) 0 sc
    have h1 := hpack.1
    have h2 := hpack.2.1 (Nat.zero_le _)
    omega
  · intro windows ms hms
    exact packDay_stop _ _ _ windows sc hms

/-- Witness for C6: with the cap already reached, the packer leaves a
remaining slot untouched. -/
theorem c6_witness :
    packDay ["Math"]
      (choosePreferredBlockMinutes (dayAvailable ⟨9, 0⟩ ⟨10, 0⟩ 0)
        ((["Math"] : List String).length : Int))
      (min 60 (dayAvailable ⟨9, 0⟩ ⟨10, 0⟩ 0)) [⟨0, 10000⟩] 60 0 =
      ([], 60, 0) := by
  exact (c6_day_cap ["Math"] ⟨9, 0⟩ ⟨10, 0⟩ 60 0 0).2 [⟨0, 10000⟩] 60
    (by decide)

